import Mathlib

/-!
Verification development for `mitre-attack-mapping.py` (siriussecurity/mitre-attack-mapping).

The script loads the MITRE ATT&CK technique taxonomy, reads per-topic sets of
available data-sources and detected techniques from a spreadsheet, scores every
technique with a coverage color, and emits one Navigator layer file per topic.

Shallow embedding conventions:
* A technique dictionary entry (`self.techniques_dict[t_id]`) becomes the
  structure `Technique`.  The Python data_sources value of a technique can be
  a list or `None`; every use in the source is guarded by its truthiness
  (`if t[data_sources]:` in Python), under which `None` and `[]` are the same,
  so both are embedded as `[]`.
* `techniques_dict.items()` iteration is a `List Technique` (Python dicts
  iterate in insertion order); keys are unique by dict construction, which
  appears as a `Nodup` hypothesis on the identifiers where needed.
* Python sets (`my_ds`, `detected_techniques[name]`, `my_techniques_set`) are
  `List String` used only through membership, except the entry-assembly loop
  `for i_ds in my_ds:` where the list order is exactly the set's iteration
  order.
* `float` arithmetic is embedded as exact rational arithmetic over `ℚ`.
* `sys.exit(0)` after a diagnostic print is embedded as an `Except` error value
  carrying the printed message and the exit code.
-/

namespace MitreAttackMapping

/-- One entry of `self.techniques_dict`: a technique as delivered by
`attack_client.get_all_enterprise_techniques`, with the three fields the
script reads (`technique_id`, `tactic`, `data_sources`). -/
structure Technique where
  technique_id : String
  tactic : List String
  data_sources : List String
deriving Repr, DecidableEq

/-! ### Color constants of `_colorize_techniques` (lines 131-143) -/

/-- Datasource color, tier `result <= 25`. -/
def c25 : String := "#f9f1c6"
/-- Datasource color, tier `result <= 50`. -/
def c50 : String := "#ffe766"
/-- Datasource color, tier `result <= 75`. -/
def c75 : String := "#ffd466"
/-- Datasource color, tier `result <= 99`. -/
def c99 : String := "#f6b922"
/-- Datasource color, top tier. -/
def c100 : String := "#c39217"

/-- Detection color, tier `result <= 25`. -/
def dc25 : String := "#bbfcd5"
/-- Detection color, tier `result <= 50`. -/
def dc50 : String := "#96f2bb"
/-- Detection color, tier `result <= 75`. -/
def dc75 : String := "#63eb99"
/-- Detection color, tier `result <= 99`. -/
def dc99 : String := "#33de77"
/-- Detection color, top tier. -/
def dc100 : String := "#06c452"

/-- The marking color of line 167, for techniques without data-sources. -/
def unmappedColor : String := "#dc1a33"

/-- The no-detection palette `c25 … c100`, indexed by tier. -/
def dsPalette : Fin 5 → String
  | 0 => c25
  | 1 => c50
  | 2 => c75
  | 3 => c99
  | 4 => c100

/-- The detection-in-place palette `dc25 … dc100`, indexed by tier. -/
def detPalette : Fin 5 → String
  | 0 => dc25
  | 1 => dc50
  | 2 => dc75
  | 3 => dc99
  | 4 => dc100

/-! ### The coloring loop of `_colorize_techniques` (lines 147-167) -/

/-- Python variable ds_count (lines 150-153): how many of the technique's
data-sources are in the topic's available set `my_ds`. -/
def ds_count (t : Technique) (my_ds : List String) : Nat :=
  (t.data_sources.filter (fun ds => ds ∈ my_ds)).length

/-- Python variable result (line 155), the float expression
`(float(ds_count) / float(total_ds_count)) * 100` embedded over `ℚ`. -/
def result (t : Technique) (my_ds : List String) : ℚ :=
  ((ds_count t my_ds : ℚ) / (t.data_sources.length : ℚ)) * 100

/-- The chained conditional expressions of lines 159 and 162: pick a shade by
ascending `<=` comparisons against 25, 50, 75, 99, in the detection palette
when `detected` and in the datasource palette otherwise. -/
def coverageColor (r : ℚ) (detected : Bool) : String :=
  if detected then
    if r ≤ 25 then dc25 else if r ≤ 50 then dc50 else if r ≤ 75 then dc75
    else if r ≤ 99 then dc99 else dc100
  else
    if r ≤ 25 then c25 else if r ≤ 50 then c50 else if r ≤ 75 then c75
    else if r ≤ 99 then c99 else c100

/-- The body of the loop `for t_id, t in self.techniques_dict.items():`
(lines 147-167): the value stored in `technique_colors[t_id]`, or `none` when
the iteration stores nothing for this technique.  The outer guard
`if t[data_sources]:` skips any technique whose data-source list is falsy
(empty or `None`); inside it, `total_ds_count > 0` selects between the
coverage color and the marking color of line 167. -/
def colorizeOne (t : Technique) (my_ds detected_techniques : List String) :
    Option String :=
  if t.data_sources ≠ [] then
    if t.data_sources.length > 0 then
      some (coverageColor (result t my_ds) (t.technique_id ∈ detected_techniques))
    else
      some unmappedColor
  else
    none

/-- The finished `technique_colors` dictionary as a lookup function: the keys
are technique identifiers (unique, since `techniques_dict` is id-keyed), and
the stored color of `t_id` is whatever the loop body assigned for the unique
technique carrying that id. -/
def technique_colors (techniques : List Technique)
    (my_ds detected_techniques : List String) (t_id : String) : Option String :=
  match techniques.find? (fun t => t.technique_id == t_id) with
  | some t => colorizeOne t my_ds detected_techniques
  | none => none

/-! ### Entry assembly (lines 169-190) -/

/-- Python method _normalize_name_to_filename (line 198): lowercase and
replace spaces with dashes.  Line 187 applies the same expression, lower()
followed by replacing every space with a dash, inline to the tactic name.
Embedded character-wise (for a one-character pattern, Python str.replace
substitutes each occurrence independently): first lower(), then the
space-to-dash substitution. -/
def normalize_name (name : String) : String :=
  ⟨(name.data.map Char.toLower).map (fun c => if c = ' ' then '-' else c)⟩

/-- One output dictionary `d` built in lines 181-187.  The color field holds
`technique_colors[t_id]`; the Python lookup raises `KeyError` when the key is
missing, embedded here by keeping the looked-up `Option`. -/
structure Entry where
  techniqueID : String
  color : Option String
  comment : String
  enabled : Bool
  tactic : String
deriving Repr, DecidableEq

/-- Lines 181-187: the entry emitted for technique `t_id` and one tactic. -/
def mkEntry (colors : String → Option String) (t_id tac : String) : Entry :=
  { techniqueID := t_id
    color := colors t_id
    comment := ""
    enabled := true
    tactic := normalize_name tac }

/-- The body of the inner loop `for t_id, t in self.techniques_dict.items():`
(lines 174-188), acting on the accumulator `(my_techniques, my_techniques_set)`
for the current data-source `i_ds`: when the data-source list is truthy, `i_ds`
is one of them and the technique was not added yet, append one entry per
tactic and record the technique id in the set. -/
def claimStep (colors : String → Option String) (i_ds : String)
    (acc : List Entry × List String) (t : Technique) :
    List Entry × List String :=
  if t.data_sources ≠ [] ∧ i_ds ∈ t.data_sources ∧ t.technique_id ∉ acc.2 then
    (acc.1 ++ t.tactic.map (mkEntry colors t.technique_id),
     acc.2 ++ [t.technique_id])
  else
    acc

/-- The nested loops of lines 172-188 (`for i_ds in my_ds:` outer, techniques
inner), run from an arbitrary accumulator.  `my_ds` is passed as the
iteration order of the topic's data-source set. -/
def assembleFrom (techniques : List Technique) (colors : String → Option String)
    (my_ds : List String) (acc : List Entry × List String) :
    List Entry × List String :=
  my_ds.foldl
    (fun acc i_ds => techniques.foldl (claimStep colors i_ds) acc) acc

/-- Lines 169-190: starting from `my_techniques = []` and
`my_techniques_set = set()`, run the nested loops and return the
`my_techniques` list. -/
def colorize_techniques (techniques : List Technique)
    (my_ds detected_techniques : List String) : List Entry :=
  (assembleFrom techniques (technique_colors techniques my_ds detected_techniques)
    my_ds ([], [])).1

/-! ### Spreadsheet loading (`_load_my_datasources_from_file`,
`_load_my_detected_techniques`, lines 77-119) -/

/-- An openpyxl worksheet as the script reads it: `ws.cell(row, col).value`
(1-based indices; `none` is an empty cell, and every non-empty cell the
script touches is assumed to hold a string — a non-string value makes the
Python crash, which the spec leaves undefined), plus `ws.max_row` and
`ws.max_column`. -/
structure Worksheet where
  cell : Nat → Nat → Option String
  max_row : Nat
  max_column : Nat

/-- A workbook: its sheet names and the worksheet behind each name. -/
structure Workbook where
  sheetnames : List String
  sheet : String → Worksheet

/-- The observable outcome of `print(...)` followed by `sys.exit(0)`:
the printed diagnostic and the process exit status. -/
structure ExitMessage where
  message : String
  exitCode : Nat
deriving Repr, DecidableEq

/-- Rows `2 .. ws.max_row` (Python `range(2, ws.max_row+1)`); likewise for
columns with `max_column`. -/
def cellRange (bound : Nat) : List Nat :=
  List.range' 2 (bound - 1)

/-- Lines 93-97, one topic column of the `Datasources` sheet: the row-label
values (`ws.cell(row, 1).value`) of the rows whose marker cell in this
column holds the literal one-letter string x.  Built as a list; the source adds
the same values to a Python set. -/
def datasourceColumn (ws : Worksheet) (col : Nat) : List (Option String) :=
  (cellRange ws.max_row).filterMap (fun row =>
    if ws.cell row col = some "x" then some (ws.cell row 1) else none)

/-- `_load_my_datasources_from_file` (lines 77-97): if the `Datasources`
sheet is absent, print a diagnostic and exit with status 0; otherwise map
each topic column (header value in row 1) to its claimed data-sources. -/
def load_my_datasources_from_file (wb : Workbook) :
    Except ExitMessage (List (Option String × List (Option String))) :=
  if "Datasources" ∉ wb.sheetnames then
    Except.error ⟨"No worksheet with name \"Datasources\"", 0⟩
  else
    let ws := wb.sheet "Datasources"
    Except.ok ((cellRange ws.max_column).map
      (fun col => (ws.cell 1 col, datasourceColumn ws col)))

/-- Lines 111-119, one topic column of the `Detections` sheet: every
non-empty cell's value split on a comma, all fragments kept verbatim. -/
def detectionColumn (ws : Worksheet) (col : Nat) : List String :=
  (cellRange ws.max_row).flatMap (fun row =>
    match ws.cell row col with
    | some value => value.splitOn ","
    | none => [])

/-- `_load_my_detected_techniques` (lines 99-119): if the `Detections`
sheet is absent, print a diagnostic and exit with status 0; otherwise map
each topic column to its detected technique identifiers. -/
def load_my_detected_techniques (wb : Workbook) :
    Except ExitMessage (List (Option String × List String)) :=
  if "Detections" ∉ wb.sheetnames then
    Except.error ⟨"No worksheet with name \"Detections\"", 0⟩
  else
    let ws := wb.sheet "Detections"
    Except.ok ((cellRange ws.max_column).map
      (fun col => (ws.cell 1 col, detectionColumn ws col)))

/-! ### Structure of the assembled entry list -/

/-- The block of entries the inner loop emits when the technique with
identifier `t_id` is claimed: one entry per tactic of that technique
(lines 180-188). -/
def blockOf (techniques : List Technique) (colors : String → Option String)
    (t_id : String) : List Entry :=
  match techniques.find? (fun t => t.technique_id == t_id) with
  | some t => t.tactic.map (mkEntry colors t_id)
  | none => []

/-- Loop invariant of the assembly: `my_techniques_set` is duplicate-free,
every recorded id belongs to a taxonomy technique with a non-empty
data-source list, and `my_techniques` is the concatenation of the blocks of
the recorded ids, in order. -/
def GoodAcc (techniques : List Technique) (colors : String → Option String)
    (acc : List Entry × List String) : Prop :=
  acc.2.Nodup ∧
  (∀ t_id ∈ acc.2, ∃ t ∈ techniques,
      t.technique_id = t_id ∧ t.data_sources ≠ []) ∧
  acc.1 = acc.2.flatMap (blockOf techniques colors)

lemma find?_technique_id (techniques : List Technique) (t : Technique)
    (hids : (techniques.map Technique.technique_id).Nodup) (ht : t ∈ techniques) :
    techniques.find? (fun u => u.technique_id == t.technique_id) = some t := by
  induction techniques with
  | nil => cases ht
  | cons u l ih =>
    rw [List.map_cons, List.nodup_cons] at hids
    rcases List.mem_cons.mp ht with rfl | htl
    · simp [List.find?_cons_of_pos]
    · have hne : (u.technique_id == t.technique_id) = false := by
        rw [beq_eq_false_iff_ne]
        intro he
        exact hids.1 (he ▸ List.mem_map_of_mem Technique.technique_id htl)
      rw [List.find?_cons, hne]
      exact ih hids.2 htl

lemma technique_id_inj {techniques : List Technique}
    (hids : (techniques.map Technique.technique_id).Nodup) {t t' : Technique}
    (ht : t ∈ techniques) (ht' : t' ∈ techniques)
    (he : t.technique_id = t'.technique_id) : t = t' := by
  have h1 := find?_technique_id techniques t hids ht
  have h2 := find?_technique_id techniques t' hids ht'
  rw [he, h2] at h1
  exact (Option.some_inj.mp h1).symm

lemma claimStep_good {techniques : List Technique} {colors : String → Option String}
    {i_ds : String} {acc : List Entry × List String} {t : Technique}
    (hids : (techniques.map Technique.technique_id).Nodup) (ht : t ∈ techniques)
    (h : GoodAcc techniques colors acc) :
    GoodAcc techniques colors (claimStep colors i_ds acc t) := by
  obtain ⟨hnd, hwit, hflat⟩ := h
  unfold claimStep
  split
  case isTrue hc =>
    refine ⟨?_, ?_, ?_⟩
    · simp only [List.nodup_append, List.nodup_cons, List.nodup_nil]
      exact ⟨hnd, by simp, by simpa [List.disjoint_singleton] using hc.2.2⟩
    · intro tid hm
      rcases List.mem_append.mp hm with hm | hm
      · exact hwit tid hm
      · have he : t.technique_id = tid := (List.mem_singleton.mp hm).symm
        exact ⟨t, ht, he, hc.1⟩
    · simp only [List.flatMap_append, ← hflat, List.flatMap_cons, List.flatMap_nil,
        List.append_nil]
      rw [blockOf, find?_technique_id techniques t hids ht]
  case isFalse =>
    exact ⟨hnd, hwit, hflat⟩

lemma foldl_claimStep_good {techniques : List Technique} {colors : String → Option String}
    {i_ds : String} (l : List Technique) (hl : ∀ t ∈ l, t ∈ techniques)
    (hids : (techniques.map Technique.technique_id).Nodup)
    {acc : List Entry × List String} (h : GoodAcc techniques colors acc) :
    GoodAcc techniques colors (l.foldl (claimStep colors i_ds) acc) := by
  induction l generalizing acc with
  | nil => exact h
  | cons t l ih =>
    exact ih (fun u hu => hl u (List.mem_cons_of_mem _ hu))
      (claimStep_good hids (hl t (List.mem_cons_self _ _)) h)

lemma assembleFrom_good (techniques : List Technique) (colors : String → Option String)
    (my_ds : List String) (hids : (techniques.map Technique.technique_id).Nodup)
    {acc : List Entry × List String} (h : GoodAcc techniques colors acc) :
    GoodAcc techniques colors (assembleFrom techniques colors my_ds acc) := by
  induction my_ds generalizing acc with
  | nil => exact h
  | cons d ds ih =>
    exact ih (foldl_claimStep_good techniques (fun _ hu => hu) hids h)

lemma goodAcc_nil (techniques : List Technique) (colors : String → Option String) :
    GoodAcc techniques colors ([], []) :=
  ⟨List.nodup_nil, (fun tid h => absurd h (List.not_mem_nil tid)), by simp⟩

lemma claimStep_seen_mono {colors : String → Option String} {i_ds : String}
    {acc : List Entry × List String} {t : Technique} :
    acc.2 ⊆ (claimStep colors i_ds acc t).2 := by
  unfold claimStep
  split
  · exact fun x hx => List.mem_append.mpr (Or.inl hx)
  · exact fun x hx => hx

lemma foldl_seen_mono {colors : String → Option String} {i_ds : String}
    (l : List Technique) {acc : List Entry × List String} :
    acc.2 ⊆ (l.foldl (claimStep colors i_ds) acc).2 := by
  induction l generalizing acc with
  | nil => exact fun x hx => hx
  | cons t l ih => exact fun x hx => ih (claimStep_seen_mono hx)

lemma assembleFrom_seen_mono (techniques : List Technique)
    (colors : String → Option String) (my_ds : List String)
    {acc : List Entry × List String} :
    acc.2 ⊆ (assembleFrom techniques colors my_ds acc).2 := by
  induction my_ds generalizing acc with
  | nil => exact fun x hx => hx
  | cons d ds ih => exact fun x hx => ih (foldl_seen_mono techniques hx)

lemma foldl_claims {colors : String → Option String} {i_ds : String}
    (l : List Technique) {acc : List Entry × List String} {t : Technique}
    (ht : t ∈ l) (hds : i_ds ∈ t.data_sources) :
    t.technique_id ∈ (l.foldl (claimStep colors i_ds) acc).2 := by
  induction l generalizing acc with
  | nil => cases ht
  | cons u l ih =>
    rcases List.mem_cons.mp ht with rfl | htl
    · by_cases hmem : t.technique_id ∈ acc.2
      · exact foldl_seen_mono l (claimStep_seen_mono hmem)
      · have hstep : (claimStep colors i_ds acc t).2 = acc.2 ++ [t.technique_id] := by
          unfold claimStep
          rw [if_pos ⟨List.ne_nil_of_mem hds, hds, hmem⟩]
        rw [List.foldl_cons]
        apply foldl_seen_mono l
        rw [hstep]
        exact List.mem_append.mpr (Or.inr (List.mem_singleton.mpr rfl))
    · exact ih htl

lemma assembleFrom_claims (techniques : List Technique)
    (colors : String → Option String) (my_ds : List String)
    {acc : List Entry × List String} {t : Technique} {d : String}
    (ht : t ∈ techniques) (hd : d ∈ my_ds) (hds : d ∈ t.data_sources) :
    t.technique_id ∈ (assembleFrom techniques colors my_ds acc).2 := by
  induction my_ds generalizing acc with
  | nil => cases hd
  | cons d0 ds ih =>
    rcases List.mem_cons.mp hd with rfl | hd'
    · exact assembleFrom_seen_mono techniques colors ds (foldl_claims techniques ht hds)
    · exact ih hd'

lemma foldl_seen_sound {colors : String → Option String} {i_ds : String}
    (l : List Technique) {acc : List Entry × List String} {tid : String}
    (h : tid ∈ (l.foldl (claimStep colors i_ds) acc).2) :
    tid ∈ acc.2 ∨ ∃ t ∈ l, t.technique_id = tid ∧ i_ds ∈ t.data_sources := by
  induction l generalizing acc with
  | nil => exact Or.inl h
  | cons u l ih =>
    rcases ih h with h' | ⟨t, htl, he, hds⟩
    · by_cases hc : u.data_sources ≠ [] ∧ i_ds ∈ u.data_sources ∧ u.technique_id ∉ acc.2
      · rw [claimStep, if_pos hc] at h'
        rcases List.mem_append.mp h' with h'' | h''
        · exact Or.inl h''
        · exact Or.inr ⟨u, List.mem_cons_self _ _,
            (List.mem_singleton.mp h'').symm, hc.2.1⟩
      · rw [claimStep, if_neg hc] at h'
        exact Or.inl h'
    · exact Or.inr ⟨t, List.mem_cons_of_mem _ htl, he, hds⟩

lemma assembleFrom_seen_sound (techniques : List Technique)
    (colors : String → Option String) (my_ds : List String)
    {acc : List Entry × List String} {tid : String}
    (h : tid ∈ (assembleFrom techniques colors my_ds acc).2) :
    tid ∈ acc.2 ∨
      ∃ t ∈ techniques, t.technique_id = tid ∧ ∃ d ∈ my_ds, d ∈ t.data_sources := by
  induction my_ds generalizing acc with
  | nil => exact Or.inl h
  | cons d ds ih =>
    rcases ih h with h' | ⟨t, ht, he, d', hd', hds⟩
    · rcases foldl_seen_sound techniques h' with h'' | ⟨t, ht, he, hds⟩
      · exact Or.inl h''
      · exact Or.inr ⟨t, ht, he, d, List.mem_cons_self _ _, hds⟩
    · exact Or.inr ⟨t, ht, he, d', List.mem_cons_of_mem _ hd', hds⟩

/-- Membership in the final `my_techniques_set`: exactly the identifiers of
taxonomy techniques sharing at least one data-source with the topic. -/
lemma colorize_seen_iff (techniques : List Technique)
    (colors : String → Option String) (my_ds : List String) (tid : String) :
    tid ∈ (assembleFrom techniques colors my_ds ([], [])).2 ↔
      ∃ t ∈ techniques, t.technique_id = tid ∧ ∃ d ∈ my_ds, d ∈ t.data_sources := by
  constructor
  · intro h
    rcases assembleFrom_seen_sound techniques colors my_ds h with h' | h'
    · cases h'
    · exact h'
  · rintro ⟨t, ht, rfl, d, hd, hds⟩
    exact assembleFrom_claims techniques colors my_ds ht hd hds

lemma colorizeOne_of_ne_nil {t : Technique} (my_ds det : List String)
    (h : t.data_sources ≠ []) :
    colorizeOne t my_ds det =
      some (coverageColor (result t my_ds) (t.technique_id ∈ det)) := by
  rw [colorizeOne, if_pos h, if_pos (List.length_pos.mpr h)]

lemma mem_blockOf {techniques : List Technique} {colors : String → Option String}
    {t_id : String} {e : Entry} (he : e ∈ blockOf techniques colors t_id) :
    e.techniqueID = t_id ∧ e.color = colors t_id ∧ e.comment = "" ∧
      e.enabled = true ∧
      ∃ t ∈ techniques, t.technique_id = t_id ∧
        ∃ tac ∈ t.tactic, e.tactic = normalize_name tac := by
  rw [blockOf] at he
  split at he
  case h_1 t hf =>
    obtain ⟨tac, htac, rfl⟩ := List.mem_map.mp he
    have ht : t ∈ techniques := List.mem_of_find?_eq_some hf
    have hp := List.find?_some hf
    have hid : t.technique_id = t_id := by simpa using hp
    exact ⟨rfl, rfl, rfl, rfl, t, ht, hid, tac, htac, rfl⟩
  case h_2 => cases he

lemma filter_flatMap_blocks (l : List String) (f : String → List Entry)
    (p : Entry → Bool) :
    (l.flatMap f).filter p = l.flatMap (fun a => (f a).filter p) := by
  induction l with
  | nil => rfl
  | cons a l ih => simp only [List.flatMap_cons, List.filter_append, ih]

lemma filter_blockOf_ne {techniques : List Technique} {colors : String → Option String}
    {a tid : String} (hne : a ≠ tid) (q : Entry → Bool) :
    (blockOf techniques colors a).filter (fun e => e.techniqueID == tid && q e) = [] := by
  rw [List.filter_eq_nil_iff]
  intro e he hc
  have h1 := (mem_blockOf he).1
  rw [Bool.and_eq_true, beq_iff_eq] at hc
  exact hne (h1 ▸ hc.1)

lemma filter_flatMap_single {techniques : List Technique}
    {colors : String → Option String} (seen : List String) (hnd : seen.Nodup)
    (tid : String) (q : Entry → Bool) :
    (seen.flatMap (blockOf techniques colors)).filter
        (fun e => e.techniqueID == tid && q e) =
      if tid ∈ seen then
        (blockOf techniques colors tid).filter (fun e => e.techniqueID == tid && q e)
      else [] := by
  induction seen with
  | nil => simp
  | cons a l ih =>
    rw [List.flatMap_cons, List.filter_append, ih (List.nodup_cons.mp hnd).2]
    by_cases ha : a = tid
    · subst ha
      rw [if_neg (List.nodup_cons.mp hnd).1, if_pos (List.mem_cons_self _ _),
        List.append_nil]
    · rw [filter_blockOf_ne ha, List.nil_append]
      by_cases hl : tid ∈ l
      · rw [if_pos hl, if_pos (List.mem_cons_of_mem _ hl)]
      · refine if_neg hl ▸ if_neg ?_ ▸ rfl
        intro hmem
        rcases List.mem_cons.mp hmem with rfl | h
        · exact ha rfl
        · exact hl h

/-- The assembled list is the concatenation of the claimed techniques'
blocks, block order following first-claim order. -/
lemma colorize_techniques_eq_flatMap (techniques : List Technique)
    (my_ds det : List String)
    (hids : (techniques.map Technique.technique_id).Nodup) :
    colorize_techniques techniques my_ds det =
      (assembleFrom techniques (technique_colors techniques my_ds det)
          my_ds ([], [])).2.flatMap
        (blockOf techniques (technique_colors techniques my_ds det)) := by
  have h := assembleFrom_good techniques (technique_colors techniques my_ds det)
    my_ds hids (goodAcc_nil techniques (technique_colors techniques my_ds det))
  exact h.2.2

lemma result_congr (t : Technique) {my_ds my_ds' : List String}
    (h : ∀ a, a ∈ my_ds ↔ a ∈ my_ds') :
    result t my_ds = result t my_ds' := by
  unfold result ds_count
  rw [List.filter_congr (fun a _ => decide_eq_decide.mpr (h a))]

lemma technique_colors_congr (techniques : List Technique) {my_ds my_ds' : List String}
    (det : List String) (h : ∀ a, a ∈ my_ds ↔ a ∈ my_ds') :
    technique_colors techniques my_ds det = technique_colors techniques my_ds' det := by
  funext tid
  unfold technique_colors
  cases hf : techniques.find? (fun u => u.technique_id == tid) with
  | none => rfl
  | some t =>
    show colorizeOne t my_ds det = colorizeOne t my_ds' det
    unfold colorizeOne
    rw [result_congr t h]

/-! ### Claim theorems -/

/-- C1 (code evidence): a technique whose declared data-source list is empty
is assigned NO color by the colorization loop — the guard
`if t['data_sources']:` on line 148 skips it, so the marking color
`'#dc1a33'` of line 167 (reachable only for a truthy list of length 0) is
never stored, contrary to the inline comment and the spec.  Shown here for
T1205, one of the techniques line 166 names, for every topic. -/
theorem empty_ds_no_color :
    (∀ my_ds det : List String,
      technique_colors [⟨"T1205", ["Command And Control"], []⟩] my_ds det "T1205" = none) ∧
    unmappedColor = "#dc1a33" :=
  ⟨fun _ _ => rfl, rfl⟩

/-- C2: for a technique with a non-empty data-source list, the coverage
`result = 100 * ds_count / total_ds_count` lies in `[0, 100]` and the shade
in the chosen palette is selected by ascending `<=` comparisons against
25, 50, 75, 99, first match winning; everything above 99 — including exactly
100 — lands in the fifth, top tier. -/
theorem coverage_tier_selection (t : Technique) (my_ds det : List String)
    (h : t.data_sources ≠ []) :
    (0 ≤ result t my_ds ∧ result t my_ds ≤ 100) ∧
    (result t my_ds ≤ 25 → colorizeOne t my_ds det =
      some ((if t.technique_id ∈ det then detPalette else dsPalette) 0)) ∧
    (25 < result t my_ds → result t my_ds ≤ 50 → colorizeOne t my_ds det =
      some ((if t.technique_id ∈ det then detPalette else dsPalette) 1)) ∧
    (50 < result t my_ds → result t my_ds ≤ 75 → colorizeOne t my_ds det =
      some ((if t.technique_id ∈ det then detPalette else dsPalette) 2)) ∧
    (75 < result t my_ds → result t my_ds ≤ 99 → colorizeOne t my_ds det =
      some ((if t.technique_id ∈ det then detPalette else dsPalette) 3)) ∧
    (99 < result t my_ds → colorizeOne t my_ds det =
      some ((if t.technique_id ∈ det then detPalette else dsPalette) 4)) := by
  have htot : 0 < (t.data_sources.length : ℚ) := by
    exact_mod_cast List.length_pos.mpr h
  have hcnt : (ds_count t my_ds : ℚ) ≤ (t.data_sources.length : ℚ) := by
    exact_mod_cast List.length_filter_le _ _
  have hcnt0 : 0 ≤ (ds_count t my_ds : ℚ) := Nat.cast_nonneg _
  refine ⟨⟨?_, ?_⟩, ?_, ?_, ?_, ?_, ?_⟩
  · unfold result; positivity
  · unfold result
    rw [div_mul_eq_mul_div, div_le_iff₀ htot]
    nlinarith
  · intro h1
    rw [colorizeOne_of_ne_nil _ _ h]
    by_cases hm : t.technique_id ∈ det <;>
      simp [coverageColor, hm, h1, detPalette, dsPalette]
  · intro h1 h2
    rw [colorizeOne_of_ne_nil _ _ h]
    have n1 : ¬ result t my_ds ≤ 25 := by linarith
    by_cases hm : t.technique_id ∈ det <;>
      simp [coverageColor, hm, n1, h2, detPalette, dsPalette]
  · intro h1 h2
    rw [colorizeOne_of_ne_nil _ _ h]
    have n1 : ¬ result t my_ds ≤ 25 := by linarith
    have n2 : ¬ result t my_ds ≤ 50 := by linarith
    by_cases hm : t.technique_id ∈ det <;>
      simp [coverageColor, hm, n1, n2, h2, detPalette, dsPalette]
  · intro h1 h2
    rw [colorizeOne_of_ne_nil _ _ h]
    have n1 : ¬ result t my_ds ≤ 25 := by linarith
    have n2 : ¬ result t my_ds ≤ 50 := by linarith
    have n3 : ¬ result t my_ds ≤ 75 := by linarith
    by_cases hm : t.technique_id ∈ det <;>
      simp [coverageColor, hm, n1, n2, n3, h2, detPalette, dsPalette]
  · intro h1
    rw [colorizeOne_of_ne_nil _ _ h]
    have n1 : ¬ result t my_ds ≤ 25 := by linarith
    have n2 : ¬ result t my_ds ≤ 50 := by linarith
    have n3 : ¬ result t my_ds ≤ 75 := by linarith
    have n4 : ¬ result t my_ds ≤ 99 := by linarith
    by_cases hm : t.technique_id ∈ det <;>
      simp [coverageColor, hm, n1, n2, n3, n4, detPalette, dsPalette]

/-- C2 witness: a technique with data-sources `{A, B}` and topic set `{A}`
has coverage 50, tier `<= 50`, no-detection palette. -/
theorem coverage_tier_selection_witness :
    (⟨"T1", ["Execution"], ["A", "B"]⟩ : Technique).data_sources ≠ [] ∧
      (25 < result ⟨"T1", ["Execution"], ["A", "B"]⟩ ["A"] →
        result ⟨"T1", ["Execution"], ["A", "B"]⟩ ["A"] ≤ 50 →
        colorizeOne ⟨"T1", ["Execution"], ["A", "B"]⟩ ["A"] [] =
          some ((if ("T1" : String) ∈ ([] : List String) then detPalette
            else dsPalette) 1)) :=
  ⟨by decide, (coverage_tier_selection ⟨"T1", ["Execution"], ["A", "B"]⟩ ["A"] []
    (by decide)).2.2.1⟩

/-- C3: for a technique with a non-empty data-source list, membership of its
identifier in the topic's detected set is a pure palette switch: with the
available-set fixed, a detecting topic and a non-detecting topic color the
technique with the same tier index `i` of the detection palette and of the
datasource palette respectively. -/
theorem detection_switches_palette_only (t : Technique) (my_ds det det' : List String)
    (h : t.data_sources ≠ []) (hd : t.technique_id ∈ det) (hd' : t.technique_id ∉ det') :
    ∃ i : Fin 5, colorizeOne t my_ds det = some (detPalette i) ∧
      colorizeOne t my_ds det' = some (dsPalette i) := by
  rw [colorizeOne_of_ne_nil _ _ h, colorizeOne_of_ne_nil _ _ h]
  simp only [coverageColor, hd, hd', decide_True, decide_False, if_true, if_false,
    Bool.false_eq_true, decide_eq_true_eq]
  split_ifs
  · exact ⟨0, rfl, rfl⟩
  · exact ⟨1, rfl, rfl⟩
  · exact ⟨2, rfl, rfl⟩
  · exact ⟨3, rfl, rfl⟩
  · exact ⟨4, rfl, rfl⟩

/-- C3 witness: at coverage 50 the detecting topic gets `dc50`, the
non-detecting one `c50`. -/
theorem detection_switches_palette_only_witness :
    (⟨"T1", ["Execution"], ["A", "B"]⟩ : Technique).data_sources ≠ [] ∧
      ("T1" : String) ∈ ["T1"] ∧ ("T1" : String) ∉ ([] : List String) ∧
      ∃ i : Fin 5,
        colorizeOne ⟨"T1", ["Execution"], ["A", "B"]⟩ ["A"] ["T1"] =
          some (detPalette i) ∧
        colorizeOne ⟨"T1", ["Execution"], ["A", "B"]⟩ ["A"] [] =
          some (dsPalette i) :=
  ⟨by decide, by decide, by decide,
    detection_switches_palette_only ⟨"T1", ["Execution"], ["A", "B"]⟩ ["A"] ["T1"] []
      (by decide) (by decide) (by decide)⟩

/-- C5: for a technique with a non-empty data-source list, growing the
topic's available-set (in particular adding one more data-source) never
decreases the coverage value. -/
theorem coverage_monotone_in_datasources (t : Technique) (my_ds my_ds' : List String)
    (h : t.data_sources ≠ []) (hsub : ∀ d ∈ my_ds, d ∈ my_ds') :
    result t my_ds ≤ result t my_ds' := by
  have hc : (ds_count t my_ds : ℚ) ≤ (ds_count t my_ds' : ℚ) := by
    have hle : ds_count t my_ds ≤ ds_count t my_ds' := by
      apply List.Sublist.length_le
      apply List.monotone_filter_right
      intro a hpa
      exact decide_eq_true (hsub a (of_decide_eq_true hpa))
    exact_mod_cast hle
  have htot : 0 < (t.data_sources.length : ℚ) := by
    exact_mod_cast List.length_pos.mpr h
  unfold result
  gcongr

/-- C5 witness: adding data-source `B` to available-set `{A}` for a
technique with data-sources `{A, B}`. -/
theorem coverage_monotone_in_datasources_witness :
    (⟨"T1", ["Execution"], ["A", "B"]⟩ : Technique).data_sources ≠ [] ∧
      result ⟨"T1", ["Execution"], ["A", "B"]⟩ ["A"] ≤
        result ⟨"T1", ["Execution"], ["A", "B"]⟩ ["A", "B"] :=
  ⟨by decide, coverage_monotone_in_datasources ⟨"T1", ["Execution"], ["A", "B"]⟩
    ["A"] ["A", "B"] (by decide) (by decide)⟩

/-- C6: when the required sheet is absent from the workbook, each loader
terminates at once with the diagnostic naming the missing sheet and the
non-error exit status 0 of `sys.exit(0)`. -/
theorem missing_sheet_clean_exit (wb : Workbook) :
    ("Datasources" ∉ wb.sheetnames →
      load_my_datasources_from_file wb =
        Except.error ⟨"No worksheet with name \"Datasources\"", 0⟩) ∧
    ("Detections" ∉ wb.sheetnames →
      load_my_detected_techniques wb =
        Except.error ⟨"No worksheet with name \"Detections\"", 0⟩) := by
  constructor <;> intro h
  · rw [load_my_datasources_from_file, if_pos h]
  · rw [load_my_detected_techniques, if_pos h]

/-- C6 witness: a workbook holding only a sheet named `Sheet1`. -/
theorem missing_sheet_clean_exit_witness :
    load_my_datasources_from_file ⟨["Sheet1"], fun _ => ⟨fun _ _ => none, 0, 0⟩⟩ =
        Except.error ⟨"No worksheet with name \"Datasources\"", 0⟩ ∧
      load_my_detected_techniques ⟨["Sheet1"], fun _ => ⟨fun _ _ => none, 0, 0⟩⟩ =
        Except.error ⟨"No worksheet with name \"Detections\"", 0⟩ :=
  ⟨(missing_sheet_clean_exit _).1 (by decide),
   (missing_sheet_clean_exit _).2 (by decide)⟩

/-- C7: on the `Datasources` sheet, a topic column claims the row-label
data-source of row `row` exactly when the marker cell holds the literal
one-letter string x; on the `Detections` sheet, membership in a topic's detected
set is exactly being one of the comma-split fragments (kept verbatim — no
whitespace stripping) of some non-empty cell of that column. -/
theorem sheet_cell_semantics (ws : Worksheet) (col : Nat) (d : Option String) (x : String) :
    (d ∈ datasourceColumn ws col ↔
      ∃ row ∈ cellRange ws.max_row, ws.cell row col = some "x" ∧ ws.cell row 1 = d) ∧
    (x ∈ detectionColumn ws col ↔
      ∃ row ∈ cellRange ws.max_row, ∃ value, ws.cell row col = some value ∧
        x ∈ value.splitOn ",") := by
  constructor
  · simp only [datasourceColumn, List.mem_filterMap]
    constructor
    · rintro ⟨row, hrow, hsome⟩
      rw [Option.ite_none_right_eq_some, Option.some_inj] at hsome
      exact ⟨row, hrow, hsome⟩
    · rintro ⟨row, hrow, hx, hd⟩
      exact ⟨row, hrow, by rw [if_pos hx, hd]⟩
  · simp only [detectionColumn, List.mem_flatMap]
    constructor
    · rintro ⟨row, hrow, hx⟩
      cases hv : ws.cell row col with
      | none => rw [hv] at hx; cases hx
      | some v => rw [hv] at hx; exact ⟨row, hrow, v, hv, hx⟩
    · rintro ⟨row, hrow, v, hv, hx⟩
      exact ⟨row, hrow, by rw [hv]; exact hx⟩

/-- C4: for a taxonomy with unique technique identifiers and a technique
whose normalized tactic names are pairwise distinct, the topic's entry list
contains exactly one entry for `(t, s)` when some claimed data-source of the
topic occurs in `t`'s (then necessarily non-empty) data-source list and `s`
is one of `t`'s normalized tactics — and no entry otherwise; in particular
no `(technique, tactic)` pair is duplicated even when several claimed
data-sources reference the same technique. -/
theorem entry_multiplicity (techniques : List Technique) (my_ds det : List String)
    (t : Technique) (s : String)
    (hids : (techniques.map Technique.technique_id).Nodup)
    (ht : t ∈ techniques)
    (htac : (t.tactic.map normalize_name).Nodup) :
    ((colorize_techniques techniques my_ds det).filter
        (fun e => e.techniqueID == t.technique_id && e.tactic == s)).length =
      if (∃ d ∈ my_ds, d ∈ t.data_sources) ∧ s ∈ t.tactic.map normalize_name
      then 1 else 0 := by
  rw [colorize_techniques_eq_flatMap techniques my_ds det hids]
  have hgood := assembleFrom_good techniques (technique_colors techniques my_ds det)
    my_ds hids (goodAcc_nil techniques (technique_colors techniques my_ds det))
  rw [filter_flatMap_single _ hgood.1 t.technique_id (fun e => e.tactic == s)]
  by_cases hcl : ∃ d ∈ my_ds, d ∈ t.data_sources
  · have hmem : t.technique_id ∈
        (assembleFrom techniques (technique_colors techniques my_ds det) my_ds ([], [])).2 :=
      (colorize_seen_iff techniques _ my_ds t.technique_id).mpr ⟨t, ht, rfl, hcl⟩
    rw [if_pos hmem, blockOf, find?_technique_id techniques t hids ht]
    rw [List.filter_map, List.length_map]
    have hpred : ((fun e => e.techniqueID == t.technique_id && e.tactic == s) ∘
          (mkEntry (technique_colors techniques my_ds det) t.technique_id)) =
        (fun tac => normalize_name tac == s) := by
      funext tac
      simp [mkEntry, Function.comp]
    rw [hpred]
    have hcount : (t.tactic.filter (fun tac => normalize_name tac == s)).length =
        (t.tactic.map normalize_name).count s := by
      rw [List.count_eq_countP, ← List.countP_eq_length_filter, List.countP_map]
      rfl
    rw [hcount]
    by_cases hs : s ∈ t.tactic.map normalize_name
    · rw [List.count_eq_one_of_mem htac hs, if_pos ⟨hcl, hs⟩]
    · rw [List.count_eq_zero.mpr hs, if_neg (fun hh => hs hh.2)]
  · have hmem : t.technique_id ∉
        (assembleFrom techniques (technique_colors techniques my_ds det) my_ds ([], [])).2 := by
      intro hmem
      obtain ⟨t', ht', hid', d, hd, hds⟩ :=
        (colorize_seen_iff techniques _ my_ds t.technique_id).mp hmem
      have := technique_id_inj hids ht' ht hid'
      subst this
      exact hcl ⟨d, hd, hds⟩
    rw [if_neg hmem, List.length_nil, if_neg (fun hh => hcl hh.1)]

/-- C4 witness: one technique with tactics `Defense Evasion` and `Execution`
claimed through data-source `A`; its `(technique, execution)` pair appears
exactly once. -/
theorem entry_multiplicity_witness :
    (([⟨"T1", ["Defense Evasion", "Execution"], ["A"]⟩].map
        Technique.technique_id).Nodup) ∧
      (⟨"T1", ["Defense Evasion", "Execution"], ["A"]⟩ : Technique) ∈
        [(⟨"T1", ["Defense Evasion", "Execution"], ["A"]⟩ : Technique)] ∧
      (((⟨"T1", ["Defense Evasion", "Execution"], ["A"]⟩ : Technique)).tactic.map
        normalize_name).Nodup ∧
      ((colorize_techniques [⟨"T1", ["Defense Evasion", "Execution"], ["A"]⟩]
            ["A"] []).filter
          (fun e => e.techniqueID == "T1" && e.tactic == "execution")).length =
        if (∃ d ∈ ["A"], d ∈
              ((⟨"T1", ["Defense Evasion", "Execution"], ["A"]⟩ : Technique)).data_sources) ∧
            "execution" ∈
              ((⟨"T1", ["Defense Evasion", "Execution"], ["A"]⟩ : Technique)).tactic.map
                normalize_name
        then 1 else 0 :=
  ⟨by decide, by decide, by decide,
    entry_multiplicity [⟨"T1", ["Defense Evasion", "Execution"], ["A"]⟩] ["A"] []
      ⟨"T1", ["Defense Evasion", "Execution"], ["A"]⟩ "execution"
      (by decide) (by decide) (by decide)⟩

/-- C8 counterexample: the entry list is NOT independent of the iteration
order of the topic's data-source set (a Python `set`, whose string ordering
is not fixed across processes): the same taxonomy and the same
available-set `{A, B}`, enumerated as `[A, B]` and as `[B, A]`, yield
different entry lists — so two runs are not guaranteed byte-identical
output. -/
theorem entry_order_depends_on_set_iteration :
    (∀ x : String, x ∈ ["A", "B"] ↔ x ∈ ["B", "A"]) ∧
    colorize_techniques [⟨"T1", ["Execution"], ["A"]⟩, ⟨"T2", ["Execution"], ["B"]⟩]
        ["A", "B"] [] ≠
      colorize_techniques [⟨"T1", ["Execution"], ["A"]⟩, ⟨"T2", ["Execution"], ["B"]⟩]
        ["B", "A"] [] := by
  constructor
  · intro x
    simp [List.mem_cons, or_comm]
  · intro h
    have h2 := congrArg (List.map Entry.techniqueID) h
    simp [colorize_techniques, assembleFrom, claimStep, mkEntry] at h2

/-- C8 (amended): the run is a deterministic function of the taxonomy, the
spreadsheet content and the iteration orders of the topic's sets, and the
CONTENT of a topic's entry list does not depend on the iteration order: for
permuted enumerations of the same available-set the two entry lists are
permutations of each other (colors included); only their order differs. -/
theorem entries_perm_of_ds_perm (techniques : List Technique)
    (my_ds my_ds' det : List String)
    (hids : (techniques.map Technique.technique_id).Nodup)
    (hperm : my_ds.Perm my_ds') :
    (colorize_techniques techniques my_ds det).Perm
      (colorize_techniques techniques my_ds' det) := by
  have hcolors := technique_colors_congr techniques det (fun a => hperm.mem_iff)
  rw [colorize_techniques_eq_flatMap techniques my_ds det hids,
    colorize_techniques_eq_flatMap techniques my_ds' det hids, ← hcolors]
  have hg1 := assembleFrom_good techniques (technique_colors techniques my_ds det)
    my_ds hids (goodAcc_nil techniques (technique_colors techniques my_ds det))
  have hg2 := assembleFrom_good techniques (technique_colors techniques my_ds det)
    my_ds' hids (goodAcc_nil techniques (technique_colors techniques my_ds det))
  apply List.Perm.flatMap_right
  apply (List.perm_ext_iff_of_nodup hg1.1 hg2.1).mpr
  intro tid
  rw [colorize_seen_iff, colorize_seen_iff]
  constructor <;> rintro ⟨t, ht, he, d, hd, hds⟩
  · exact ⟨t, ht, he, d, hperm.mem_iff.mp hd, hds⟩
  · exact ⟨t, ht, he, d, hperm.mem_iff.mpr hd, hds⟩

/-- C8 (amended) witness: the two enumerations of `{A, B}` from the
counterexample produce permuted entry lists. -/
theorem entries_perm_of_ds_perm_witness :
    (([⟨"T1", ["Execution"], ["A"]⟩, ⟨"T2", ["Execution"], ["B"]⟩].map
        Technique.technique_id).Nodup) ∧
      (["A", "B"] : List String).Perm ["B", "A"] ∧
      (colorize_techniques [⟨"T1", ["Execution"], ["A"]⟩, ⟨"T2", ["Execution"], ["B"]⟩]
          ["A", "B"] []).Perm
        (colorize_techniques [⟨"T1", ["Execution"], ["A"]⟩, ⟨"T2", ["Execution"], ["B"]⟩]
          ["B", "A"] []) :=
  ⟨by decide, by decide,
    entries_perm_of_ds_perm [⟨"T1", ["Execution"], ["A"]⟩, ⟨"T2", ["Execution"], ["B"]⟩]
      ["A", "B"] ["B", "A"] [] (by decide) (by decide)⟩

/-- C9: every entry emitted into a topic's entry list carries a color that
the coloring loop actually computed: admission requires a shared
data-source, hence a non-empty data-source list, hence the
`technique_colors` lookup of line 184 finds a stored color and never
raises. -/
theorem entry_color_lookup_total (techniques : List Technique) (my_ds det : List String)
    (hids : (techniques.map Technique.technique_id).Nodup)
    (e : Entry) (he : e ∈ colorize_techniques techniques my_ds det) :
    (e.color).isSome = true := by
  rw [colorize_techniques_eq_flatMap techniques my_ds det hids] at he
  obtain ⟨tid, htid, hblock⟩ := List.mem_flatMap.mp he
  obtain ⟨heid, hecolor, -, -, t, ht, hid, -⟩ := mem_blockOf hblock
  have hgood := assembleFrom_good techniques (technique_colors techniques my_ds det)
    my_ds hids (goodAcc_nil techniques (technique_colors techniques my_ds det))
  obtain ⟨t', ht', hid', hds'⟩ := hgood.2.1 tid htid
  have hfind : techniques.find? (fun u => u.technique_id == tid) = some t' := by
    rw [← hid']
    exact find?_technique_id techniques t' hids ht'
  rw [hecolor, technique_colors, hfind]
  show (colorizeOne t' my_ds det).isSome = true
  rw [colorizeOne_of_ne_nil _ _ hds']
  rfl

/-- C9 witness: the single entry of a one-technique run carries a stored
color. -/
theorem entry_color_lookup_total_witness :
    mkEntry (technique_colors [⟨"T1", ["Execution"], ["A"]⟩] ["A"] []) "T1" "Execution" ∈
        colorize_techniques [⟨"T1", ["Execution"], ["A"]⟩] ["A"] [] ∧
      ((mkEntry (technique_colors [⟨"T1", ["Execution"], ["A"]⟩] ["A"] [])
          "T1" "Execution").color).isSome = true := by
  have hmem : mkEntry (technique_colors [⟨"T1", ["Execution"], ["A"]⟩] ["A"] [])
      "T1" "Execution" ∈ colorize_techniques [⟨"T1", ["Execution"], ["A"]⟩] ["A"] [] := by
    simp [colorize_techniques, assembleFrom, claimStep]
  exact ⟨hmem, entry_color_lookup_total _ _ _ (by decide) _ hmem⟩

/-- C10: every emitted entry carries the technique identifier unmodified and
a tactic name that is the taxonomy tactic lowercased with spaces replaced by
dashes (`tactic.lower().replace(' ', '-')`), not the verbatim tactic. -/
theorem entry_tactic_normalized (techniques : List Technique) (my_ds det : List String)
    (hids : (techniques.map Technique.technique_id).Nodup)
    (e : Entry) (he : e ∈ colorize_techniques techniques my_ds det) :
    ∃ t ∈ techniques, ∃ tac ∈ t.tactic,
      e.techniqueID = t.technique_id ∧ e.tactic = normalize_name tac := by
  rw [colorize_techniques_eq_flatMap techniques my_ds det hids] at he
  obtain ⟨tid, htid, hblock⟩ := List.mem_flatMap.mp he
  obtain ⟨heid, -, -, -, t, ht, hid, tac, htac, htacn⟩ := mem_blockOf hblock
  exact ⟨t, ht, tac, htac, by rw [heid, hid], htacn⟩

/-- C10 witness: `Defense Evasion` is emitted as `defense-evasion`, with the
identifier untouched. -/
theorem entry_tactic_normalized_witness :
    mkEntry (technique_colors [⟨"T1", ["Defense Evasion"], ["A"]⟩] ["A"] [])
        "T1" "Defense Evasion" ∈
        colorize_techniques [⟨"T1", ["Defense Evasion"], ["A"]⟩] ["A"] [] ∧
      (mkEntry (technique_colors [⟨"T1", ["Defense Evasion"], ["A"]⟩] ["A"] [])
          "T1" "Defense Evasion").tactic = "defense-evasion" ∧
      normalize_name "Defense Evasion" = "defense-evasion" ∧
      ∃ t ∈ [(⟨"T1", ["Defense Evasion"], ["A"]⟩ : Technique)], ∃ tac ∈ t.tactic,
        (mkEntry (technique_colors [⟨"T1", ["Defense Evasion"], ["A"]⟩] ["A"] [])
            "T1" "Defense Evasion").techniqueID = t.technique_id ∧
        (mkEntry (technique_colors [⟨"T1", ["Defense Evasion"], ["A"]⟩] ["A"] [])
            "T1" "Defense Evasion").tactic = normalize_name tac := by
  have hmem : mkEntry (technique_colors [⟨"T1", ["Defense Evasion"], ["A"]⟩] ["A"] [])
      "T1" "Defense Evasion" ∈
      colorize_techniques [⟨"T1", ["Defense Evasion"], ["A"]⟩] ["A"] [] := by
    simp [colorize_techniques, assembleFrom, claimStep]
  exact ⟨hmem, by decide, by decide,
    entry_tactic_normalized _ _ _ (by decide) _ hmem⟩

end MitreAttackMapping
